import Mathlib

/-!
Shallow embedding of the native persistence / file-export layer of the
`signstamp` desktop application (`src/src-tauri/src/main.rs`) and proofs of
its specified properties.

The filesystem is modelled explicitly: path strings are split into
components the way Rust's `std::path` does (on `/`, dropping empty and `.`
components), file contents are an abstract `FileData`, and the ambient
filesystem state is a list of files plus a list of existing directories.
Byte-level paths (`OsString` on Unix) are modelled as `List Nat` so that
non-UTF-8 paths are representable.
-/

set_option autoImplicit false

namespace SignStamp

/-! ## Generic path-component machinery

Rust's `Path` splits on the separator, drops empty and `.` components, and
treats `..` as a non-normal component.  We implement this generically over
the symbol type so the same definitions serve `String` paths (`Char`
symbols) and OS byte paths (`Nat` symbols). -/

variable {α : Type} [DecidableEq α]

/-- Split a symbol list on a separator, like `str::split`: `splitSep '/' "a/b"`
gives `["a", "b"]`, with empty groups kept (`"a//b"` gives `["a","","b"]`). -/
def splitSep (sep : α) : List α → List (List α)
  | [] => [[]]
  | c :: rest =>
    if c = sep then [] :: splitSep sep rest
    else
      match splitSep sep rest with
      | [] => [[c]]
      | g :: gs => (c :: g) :: gs

/-- Normal-ish path components: split on the separator and drop empty and
`.` groups (Rust `Path::components` normalisation, Unix paths). -/
def pathComponents (sep dot : α) (l : List α) : List (List α) :=
  (splitSep sep l).filter (fun c => decide (c ≠ [] ∧ c ≠ [dot]))

/-- Rust `Path::file_name`: the last component, unless it is `..` (then
`None`), or there is no component at all. -/
def fileNameG (sep dot : α) (l : List α) : Option (List α) :=
  match (pathComponents sep dot l).getLast? with
  | some c => if c = [dot, dot] then none else some c
  | none => none

/-- Split a symbol list at its last `dot`: `lastDotSplit '.' "a.b.c"` gives
`some ("a.b", "c")`; `none` when no dot occurs. -/
def lastDotSplit (dot : α) : List α → Option (List α × List α)
  | [] => none
  | c :: rest =>
    match lastDotSplit dot rest with
    | some (pre, post) => some (c :: pre, post)
    | none => if c = dot then some ([], rest) else none

/-- Rust `file_stem`/`extension` on one file-name component: split before /
after the last dot, except that a leading dot alone does not start an
extension (`".pdf"` has stem `".pdf"` and no extension). -/
def stemExtG (dot : α) (f : List α) : List α × Option (List α) :=
  match f with
  | [] => ([], none)
  | c :: rest =>
    if c = dot then
      match lastDotSplit dot rest with
      | none => (f, none)
      | some (pre, post) => (dot :: pre, some post)
    else
      match lastDotSplit dot rest with
      | none => (f, none)
      | some (pre, post) => (c :: pre, some post)

/-- Boolean suffix test on symbol lists. -/
def endsWithList (s suf : List α) : Bool :=
  decide (s.drop (s.length - suf.length) = suf)

/-! ## String-path instantiations -/

/-- The components of a path string, as strings. -/
def strComponents (s : String) : List String :=
  (pathComponents '/' '.' s.data).map (fun cs => String.mk cs)

/-- `Path::file_name` on a path string (every Lean string is valid UTF-8, so
Rust's `to_str` step always succeeds here). -/
def pathFileName (s : String) : Option String :=
  (fileNameG '/' '.' s.data).map (fun cs => String.mk cs)

/-- `Path::file_stem` on a path string. -/
def pathFileStem (s : String) : Option String :=
  (fileNameG '/' '.' s.data).map (fun cs => String.mk (stemExtG '.' cs).1)

/-- `Path::extension` on a path string. -/
def pathExtension (s : String) : Option String :=
  ((fileNameG '/' '.' s.data).bind (fun cs => (stemExtG '.' cs).2)).map
    (fun cs => String.mk cs)

/-- Unicode-lowercase a string character-wise (model of Rust
`str::to_lowercase`). -/
def lowerStr (s : String) : String :=
  String.mk (s.data.map Char.toLower)

/-- `str::ends_with` as a list-suffix test. -/
def strEndsWith (s suf : String) : Bool :=
  endsWithList s.data suf.data

/-- Embedding of `sanitize_file_name` (main.rs:133-144): keep only the final
path component of the input (default `"document-signed.pdf"` when there is
none) and append `".pdf"` unless the lowercased name already ends in it. -/
def sanitize_file_name (name : String) : String :=
  let raw := (pathFileName name).getD "document-signed.pdf"
  if strEndsWith (lowerStr raw) ".pdf" then raw else raw ++ ".pdf"

/-! ## Collision-safe export naming -/

/-- `PathBuf::join` for a directory and a relative file name. -/
def joinPath (dir name : String) : String := dir ++ "/" ++ name

/-- The numbered candidate name `"{stem} ({idx}).{ext}"`. -/
def numberedName (stem ext : String) (idx : Nat) : String :=
  stem ++ " (" ++ toString idx ++ ")." ++ ext

/-- The probing loop of `next_available_path` (main.rs:161-168): try
`fuel` successive numbered candidates starting at `idx`, returning the
first whose path does not exist, and `"{stem}-export.{ext}"` when the fuel
is exhausted.  `ex` is the point-in-time existence predicate of the
filesystem. -/
def probeFrom (ex : String → Bool) (dir stem ext : String) :
    Nat → Nat → String
  | 0, _ => joinPath dir (stem ++ "-export." ++ ext)
  | fuel + 1, idx =>
    let candidate := joinPath dir (numberedName stem ext idx)
    if ex candidate then probeFrom ex dir stem ext fuel (idx + 1)
    else candidate

/-- Embedding of `next_available_path` (main.rs:146-169): return
`dir/file_name` when that path does not exist, otherwise probe the numbered
candidates `1..=999` (the Rust loop `for idx in 1..1000`). -/
def next_available_path (ex : String → Bool) (dir : String)
    (file_name : String) : String :=
  let initial := joinPath dir file_name
  if ex initial then
    let stem := (pathFileStem file_name).getD "document-signed"
    let ext := (pathExtension file_name).getD "pdf"
    probeFrom ex dir stem ext 999 1
  else initial

/-! ## JSON values and the collection element codecs

`Json` models parsed `serde_json` values.  A `Json.num` is an integer
(`serde_json` numbers are more general, but every number this program
serialises is a `u8` or `u32`; arbitrary integers are enough for the
wrong-shape decode cases as well). -/

inductive Json : Type where
  | null : Json
  | bool (b : Bool) : Json
  | num (n : Int) : Json
  | str (s : String) : Json
  | arr (elems : List Json) : Json
  | obj (fields : List (String × Json)) : Json

/-- First binding of a key in a JSON object field list. -/
def jsonLookup (key : String) : List (String × Json) → Option Json
  | [] => none
  | (k, v) :: rest => if k = key then some v else jsonLookup key rest

/-- Decode a JSON value into `Fin m` (serde's integer decoding for `u8` /
`u32`: an in-range non-negative integer). -/
def decodeFin (m : Nat) (j : Json) : Option (Fin m) :=
  match j with
  | .num n => if h : 0 ≤ n ∧ n.toNat < m then some ⟨n.toNat, h.2⟩ else none
  | _ => none

/-- Decode a JSON string. -/
def decodeStr (j : Json) : Option String :=
  match j with
  | .str s => some s
  | _ => none

/-- Decode a list of JSON values element-wise, failing on the first
element of the wrong shape (serde's sequence deserialisation). -/
def decodeList {β : Type} (dec : Json → Option β) :
    List Json → Option (List β)
  | [] => some []
  | j :: rest =>
    match dec j with
    | none => none
    | some x =>
      match decodeList dec rest with
      | none => none
      | some xs => some (x :: xs)

/-- Decode a JSON array of `u8` into a byte list. -/
def decodeBytes (j : Json) : Option (List (Fin 256)) :=
  match j with
  | .arr elems => decodeList (decodeFin 256) elems
  | _ => none

/-- `StoredSignature` (main.rs:10-19).  `bytes` entries are `u8` and the
natural dimensions are `u32`, modelled with `Fin` of the matching bound. -/
structure StoredSignature : Type where
  id : String
  name : String
  mime : String
  bytes : List (Fin 256)
  natural_w : Fin (2 ^ 32)
  natural_h : Fin (2 ^ 32)
deriving DecidableEq

/-- Serde serialisation of one `StoredSignature`, with the
`rename_all = "camelCase"` field names. -/
def encodeSignature (s : StoredSignature) : Json :=
  .obj [("id", .str s.id), ("name", .str s.name), ("mime", .str s.mime),
        ("bytes", .arr (s.bytes.map (fun b => .num b.val))),
        ("naturalW", .num s.natural_w.val),
        ("naturalH", .num s.natural_h.val)]

/-- Serde deserialisation of one `StoredSignature`: every field must be
present with the right shape (unknown extra fields are ignored, as by
serde's default; serde's rejection of duplicate fields is not modelled —
no claim depends on duplicate-key objects). -/
def decodeSignature (j : Json) : Option StoredSignature :=
  match j with
  | .obj fields =>
    match jsonLookup "id" fields, jsonLookup "name" fields,
        jsonLookup "mime" fields, jsonLookup "bytes" fields,
        jsonLookup "naturalW" fields, jsonLookup "naturalH" fields with
    | some ji, some jn, some jm, some jb, some jw, some jh =>
      match decodeStr ji, decodeStr jn, decodeStr jm, decodeBytes jb,
          decodeFin (2 ^ 32) jw, decodeFin (2 ^ 32) jh with
      | some i, some n, some m, some b, some w, some h =>
        some ⟨i, n, m, b, w, h⟩
      | _, _, _, _, _, _ => none
    | _, _, _, _, _, _ => none
  | _ => none

/-- Serde serialisation of one snippet (a plain string). -/
def encodeSnippet (s : String) : Json := .str s

/-- Serde deserialisation of one snippet. -/
def decodeSnippet (j : Json) : Option String := decodeStr j

/-- Decode a JSON value as a collection (serde `Vec<T>` deserialises from a
JSON array, element-wise). -/
def decodeCollection {β : Type} (decElem : Json → Option β) (j : Json) :
    Option (List β) :=
  match j with
  | .arr elems => decodeList decElem elems
  | _ => none

/-! ## Filesystem model

A file's content is abstract: `jsonFile j` stands for any byte string in
the image of the `serde_json` serialiser of `j` (such bytes parse back to
exactly `j`), `rawFile bs` for an opaque byte payload written by the direct
document I/O (never parsed as JSON by any operation considered here), and
`badJson` for bytes that are not a valid JSON document of any shape. -/

inductive FileData : Type where
  | jsonFile (j : Json) : FileData
  | rawFile (bs : List Nat) : FileData
  | badJson : FileData

/-- Parsing a file's bytes as a JSON document. -/
def parseJson : FileData → Option Json
  | .jsonFile j => some j
  | .rawFile _ => none
  | .badJson => none

/-- Filesystem state: files keyed by component-list paths (newer entries
shadow older ones), plus the set of existing directories. -/
structure FS : Type where
  files : List (List String × FileData)
  dirs : List (List String)

/-- First file entry stored at a path. -/
def findFile : List (List String × FileData) → List String →
    Option FileData
  | [], _ => none
  | (p, d) :: rest, q => if p = q then some d else findFile rest q

/-- `Path::exists`: true for files and for directories. -/
def FS.existsPath (fs : FS) (p : List String) : Bool :=
  (findFile fs.files p).isSome || decide (p ∈ fs.dirs)

/-- `std::fs::read`: the file's content, or the Rust error string from
main.rs when there is no file at the path (a missing file, or a directory,
cannot be read as a file). -/
def FS.read (fs : FS) (p : List String) : Except String FileData :=
  match findFile fs.files p with
  | some d => if p ∈ fs.dirs then .error "lecture impossible" else .ok d
  | none => .error "lecture impossible"

/-- All the non-empty prefixes of a component path (the chain of ancestor
directories `create_dir_all` creates). -/
def dirChain (d : List String) : List (List String) :=
  ((List.range (d.length + 1)).map (fun k => d.take k)).filter
    (fun c => decide (c ≠ []))

/-- `std::fs::create_dir_all`: the directory and all its ancestors now
exist.  The model has no permissions, so creation always succeeds (the
`map_err` branch of main.rs:82/106 is unreachable here). -/
def FS.createDirAll (fs : FS) (d : List String) : FS :=
  { fs with dirs := dirChain d ++ fs.dirs }

/-- `std::fs::write`: replaces the file's content.  Fails (with the Rust
error string of main.rs) when the path is empty or is an existing
directory, or when its parent directory does not exist (a non-trivial
parent must be a present directory). -/
def FS.write (fs : FS) (p : List String) (d : FileData) :
    Except String FS :=
  if p = [] then .error "ecriture impossible"
  else if p ∈ fs.dirs then .error "ecriture impossible"
  else if p.dropLast = [] ∨ p.dropLast ∈ fs.dirs then
    .ok { fs with files := (p, d) :: fs.files }
  else .error "ecriture impossible"

/-! ## Storage locations and the JSON collection store -/

/-- The Tauri app handle, reduced to what the code consults: the per-user
app-data directory, when the platform can resolve one. -/
structure AppHandle : Type where
  appDataDir : Option (List String)

/-- Embedding of `signatures_path` (main.rs:34-40). -/
def signatures_path (app : AppHandle) : Except String (List String) :=
  match app.appDataDir with
  | some d => .ok (d ++ ["signatures.json"])
  | none => .error "app data dir introuvable"

/-- Embedding of `snippets_path` (main.rs:42-48). -/
def snippets_path (app : AppHandle) : Except String (List String) :=
  match app.appDataDir with
  | some d => .ok (d ++ ["snippets.json"])
  | none => .error "app data dir introuvable"

/-- The shared load shape of `load_signatures` (main.rs:67-76) and
`load_snippets` (main.rs:91-100): a missing file is the empty collection;
otherwise read the bytes (`lecture impossible` on failure) and
deserialise them (`json invalide` when they are not a JSON array of
well-shaped elements). -/
def store_load {β : Type} (decElem : Json → Option β) (fs : FS)
    (path : List String) : Except String (List β) :=
  if fs.existsPath path then
    match fs.read path with
    | .error e => .error e
    | .ok d =>
      match parseJson d with
      | none => .error "json invalide"
      | some j =>
        match decodeCollection decElem j with
        | none => .error "json invalide"
        | some xs => .ok xs
  else .ok []

/-- The shared save shape of `save_signatures` (main.rs:79-88) and
`save_snippets` (main.rs:103-112): create the parent directory chain,
then bind the `serde_json::to_vec` result (passed in as `encoded`), then
write.  The filesystem state is returned in every case, because the
directory creation persists even when a later step fails. -/
def store_save (fs : FS) (path : List String)
    (encoded : Except String Json) : FS × Except String Unit :=
  let fs1 := fs.createDirAll path.dropLast
  match encoded with
  | .error _ => (fs1, .error "json invalide")
  | .ok j =>
    match fs1.write path (.jsonFile j) with
    | .error e => (fs1, .error e)
    | .ok fs2 => (fs2, .ok ())

/-- Embedding of the `load_signatures` command (main.rs:66-76). -/
def load_signatures (app : AppHandle) (fs : FS) :
    Except String (List StoredSignature) :=
  match signatures_path app with
  | .error e => .error e
  | .ok p => store_load decodeSignature fs p

/-- Embedding of the `save_signatures` command (main.rs:78-88).
`serde_json::to_vec` cannot fail on a `Vec<StoredSignature>`, so the
encoded argument of `store_save` is always `.ok` here. -/
def save_signatures (app : AppHandle) (fs : FS)
    (signatures : List StoredSignature) : FS × Except String Unit :=
  match signatures_path app with
  | .error e => (fs, .error e)
  | .ok p => store_save fs p (.ok (.arr (signatures.map encodeSignature)))

/-- Embedding of the `load_snippets` command (main.rs:90-100). -/
def load_snippets (app : AppHandle) (fs : FS) :
    Except String (List String) :=
  match snippets_path app with
  | .error e => .error e
  | .ok p => store_load decodeSnippet fs p

/-- Embedding of the `save_snippets` command (main.rs:102-112). -/
def save_snippets (app : AppHandle) (fs : FS) (snippets : List String) :
    FS × Except String Unit :=
  match snippets_path app with
  | .error e => (fs, .error e)
  | .ok p => store_save fs p (.ok (.arr (snippets.map encodeSnippet)))

/-! ## Direct document I/O -/

/-- Embedding of the `save_pdf_to_path` command (main.rs:114-119): a bare
`std::fs::write` at the caller-supplied path — no directory creation.  On
success the returned string is the input path (`to_string_lossy` of
`PathBuf::from(path)` is the identity on the UTF-8 strings Tauri
delivers). -/
def save_pdf_to_path (fs : FS) (bytes : List Nat) (path : String) :
    FS × Except String String :=
  match fs.write (strComponents path) (.rawFile bytes) with
  | .error e => (fs, .error e)
  | .ok fs' => (fs', .ok path)

/-- The payload of a loaded document (main.rs:21-26): the file's content
and a display name. -/
structure LoadedPdf : Type where
  data : FileData
  name : String

/-- Embedding of the `load_pdf_from_path` command (main.rs:121-131): read
the bytes, and name the document after the path's final component,
defaulting to `"document.pdf"`. -/
def load_pdf_from_path (fs : FS) (path : String) :
    Except String LoadedPdf :=
  match fs.read (strComponents path) with
  | .error e => .error e
  | .ok d => .ok ⟨d, (pathFileName path).getD "document.pdf"⟩

/-! ## File-open event bridge (byte-level paths)

Candidate paths come from `args_os` / OS open events, so they are OS
strings: arbitrary byte lists on Unix, not necessarily valid UTF-8. -/

/-- A UTF-8 continuation byte. -/
def isCont (b : Nat) : Bool := 128 ≤ b && b ≤ 191

/-- UTF-8 validity of a byte list (RFC 3629 table: no overlongs, no
surrogates, at most U+10FFFF). -/
def isValidUtf8 : List Nat → Bool
  | [] => true
  | b :: rest =>
    if b ≤ 127 then isValidUtf8 rest
    else if 194 ≤ b && b ≤ 223 then
      match rest with
      | b2 :: rest2 => isCont b2 && isValidUtf8 rest2
      | [] => false
    else if b = 224 then
      match rest with
      | b2 :: b3 :: rest3 =>
        (160 ≤ b2 && b2 ≤ 191) && isCont b3 && isValidUtf8 rest3
      | _ => false
    else if (225 ≤ b && b ≤ 236) || b = 238 || b = 239 then
      match rest with
      | b2 :: b3 :: rest3 => isCont b2 && isCont b3 && isValidUtf8 rest3
      | _ => false
    else if b = 237 then
      match rest with
      | b2 :: b3 :: rest3 =>
        (128 ≤ b2 && b2 ≤ 159) && isCont b3 && isValidUtf8 rest3
      | _ => false
    else if b = 240 then
      match rest with
      | b2 :: b3 :: b4 :: rest4 =>
        (144 ≤ b2 && b2 ≤ 191) && isCont b3 && isCont b4 &&
          isValidUtf8 rest4
      | _ => false
    else if 241 ≤ b && b ≤ 243 then
      match rest with
      | b2 :: b3 :: b4 :: rest4 =>
        isCont b2 && isCont b3 && isCont b4 && isValidUtf8 rest4
      | _ => false
    else if b = 244 then
      match rest with
      | b2 :: b3 :: b4 :: rest4 =>
        (128 ≤ b2 && b2 ≤ 143) && isCont b3 && isCont b4 &&
          isValidUtf8 rest4
      | _ => false
    else false

/-- `OsStr::to_str`: succeeds exactly on valid UTF-8, and the resulting
`str` has the same bytes. -/
def toStrBytes (p : List Nat) : Option (List Nat) :=
  if isValidUtf8 p then some p else none

/-- Lowercase an ASCII byte. -/
def asciiLowerByte (b : Nat) : Nat := if 65 ≤ b && b ≤ 90 then b + 32 else b

/-- `str::eq_ignore_ascii_case` on byte lists. -/
def eqIgnoreAsciiCase (a b : List Nat) : Bool :=
  decide (a.map asciiLowerByte = b.map asciiLowerByte)

/-- `Path::extension` on an OS byte path (separator `/` is byte 47, the
dot is byte 46). -/
def byteExtension (p : List Nat) : Option (List Nat) :=
  (fileNameG 47 46 p).bind (fun f => (stemExtG 46 f).2)

/-- Embedding of `is_pdf_path` (main.rs:171-176): the extension, seen as a
UTF-8 string, equals `"pdf"` (bytes `[112, 100, 102]`) up to ASCII case. -/
def is_pdf_path (p : List Nat) : Bool :=
  match byteExtension p with
  | some extB =>
    match toStrBytes extB with
    | some e => eqIgnoreAsciiCase e [112, 100, 102]
    | none => false
  | none => false

/-- Embedding of `emit_open_pdf` (main.rs:178-191).  `ex` is the existence
predicate at filter time and `emitOk` tells whether `app.emit` succeeds.
The result is the list of forwarded `OpenPdfPayload` path strings (given
by their bytes) followed by the list of `stderr` log lines. -/
def emit_open_pdf (ex : List Nat → Bool) (emitOk : Bool)
    (path : List Nat) : List (List Nat) × List String :=
  if !(is_pdf_path path) || !(ex path) then ([], [])
  else
    match toStrBytes path with
    | none => ([], [])
    | some s => ([s], if emitOk then [] else ["emit open-pdf failed"])

/-! ## Concrete fixtures used by the closed witness statements -/

/-- An app handle whose data directory resolved to `data/`. -/
def appW : AppHandle := ⟨some ["data"]⟩

/-- The empty filesystem. -/
def fsEmpty : FS := ⟨[], []⟩

/-- A sample stored signature. -/
def sigW : StoredSignature :=
  ⟨"sig-1", "My signature", "image/png", [7, 255], 10, 20⟩

/-- A filesystem whose signature file holds bytes that are not JSON. -/
def fsBadSig : FS := ⟨[(["data", "signatures.json"], .badJson)], [["data"]]⟩

/-- A filesystem whose snippet file holds valid JSON of the wrong shape
(a string where an array is expected). -/
def fsBadSnip : FS :=
  ⟨[(["data", "snippets.json"], .jsonFile (.str "x"))], [["data"]]⟩

/-- An existence predicate for a downloads directory containing `doc.pdf`
and `doc (1).pdf`. -/
def exW : String → Bool :=
  fun p => decide (p = "D/doc.pdf" ∨ p = "D/doc (1).pdf")

/-- A filesystem with one raw document at `out/doc.pdf`. -/
def fsDoc : FS := ⟨[(["out", "doc.pdf"], .rawFile [9])], [["out"]]⟩

/-! ## Helper lemmas: path machinery -/

theorem splitSep_ne_nil (sep : α) (l : List α) : splitSep sep l ≠ [] := by
  cases l with
  | nil => simp [splitSep]
  | cons c rest =>
    simp only [splitSep]
    split
    · simp
    · cases h : splitSep sep rest <;> simp

theorem splitSep_not_mem (sep : α) (l : List α) :
    ∀ g ∈ splitSep sep l, sep ∉ g := by
  induction l with
  | nil =>
    intro g hg
    simp [splitSep] at hg
    simp [hg]
  | cons c rest ih =>
    intro g hg
    by_cases hc : c = sep
    · simp only [splitSep, if_pos hc, List.mem_cons] at hg
      rcases hg with rfl | hg
      · simp
      · exact ih g hg
    · simp only [splitSep, if_neg hc] at hg
      cases h : splitSep sep rest with
      | nil => exact absurd h (splitSep_ne_nil sep rest)
      | cons g0 gs =>
        rw [h] at hg
        rcases List.mem_cons.mp hg with rfl | hg
        · intro hmem
          rcases List.mem_cons.mp hmem with heq | hmem
          · exact hc heq.symm
          · exact ih g0 (h ▸ List.mem_cons_self g0 gs) hmem
        · exact ih g (by rw [h]; exact List.mem_cons_of_mem g0 hg)

theorem mem_of_getLast_opt {l : List α} {a : α} (h : l.getLast? = some a) :
    a ∈ l := by
  have hx : a ∈ l.getLast? := by rw [h]; rfl
  obtain ⟨hne, ha⟩ := List.mem_getLast?_eq_getLast hx
  rw [ha]
  exact List.getLast_mem hne

theorem fileNameG_not_mem {sep dot : α} {l f : List α}
    (h : fileNameG sep dot l = some f) : sep ∉ f := by
  unfold fileNameG at h
  cases hl : (pathComponents sep dot l).getLast? with
  | none => rw [hl] at h; cases h
  | some c =>
    rw [hl] at h
    by_cases hdd : c = [dot, dot]
    · simp [hdd] at h
    · simp only [if_neg hdd, Option.some.injEq] at h
      subst h
      have hc : c ∈ pathComponents sep dot l := mem_of_getLast_opt hl
      have hsplit : c ∈ splitSep sep l := (List.mem_filter.mp hc).1
      exact splitSep_not_mem sep l c hsplit

theorem endsWithList_append (x suf : List α) :
    endsWithList (x ++ suf) suf = true := by
  simp only [endsWithList, List.length_append, decide_eq_true_eq,
    Nat.add_sub_cancel]
  exact List.drop_left x suf

/-! ## Helper lemmas: codecs -/

theorem decodeFin_encode {m : Nat} (b : Fin m) :
    decodeFin m (.num b.val) = some b := by
  have h : (0 : Int) ≤ (b.val : Int) ∧ ((b.val : Int)).toNat < m :=
    ⟨Int.natCast_nonneg _, by simpa using b.isLt⟩
  simp only [decodeFin]
  rw [dif_pos h]
  simp [Fin.ext_iff]

theorem decodeList_map {β : Type} (enc : β → Json) (dec : Json → Option β)
    (h : ∀ x, dec (enc x) = some x) (xs : List β) :
    decodeList dec (xs.map enc) = some xs := by
  induction xs with
  | nil => rfl
  | cons x rest ih => simp [decodeList, h x, ih]

theorem decodeSignature_encode (s : StoredSignature) :
    decodeSignature (encodeSignature s) = some s := by
  have hb : decodeBytes (.arr (s.bytes.map (fun b => .num b.val)))
      = some s.bytes := by
    simp only [decodeBytes]
    exact decodeList_map _ _ (fun b => decodeFin_encode b) s.bytes
  simp [encodeSignature, decodeSignature, jsonLookup, decodeStr, hb,
    decodeFin_encode]

theorem decodeSnippet_encode (s : String) :
    decodeSnippet (encodeSnippet s) = some s := rfl

/-! ## Helper lemmas: filesystem and store -/

theorem write_ok {fs fs' : FS} {p : List String} {d : FileData}
    (h : fs.write p d = .ok fs') :
    fs'.files = (p, d) :: fs.files ∧ fs'.dirs = fs.dirs ∧ p ∉ fs.dirs := by
  unfold FS.write at h
  by_cases h1 : p = []
  · rw [if_pos h1] at h; cases h
  · rw [if_neg h1] at h
    by_cases h2 : p ∈ fs.dirs
    · rw [if_pos h2] at h; cases h
    · rw [if_neg h2] at h
      by_cases h3 : p.dropLast = [] ∨ p.dropLast ∈ fs.dirs
      · rw [if_pos h3] at h
        cases h
        exact ⟨rfl, rfl, h2⟩
      · rw [if_neg h3] at h; cases h

theorem write_no_parent {fs : FS} {p : List String} {d : FileData}
    (h1 : p.dropLast ≠ []) (h2 : p.dropLast ∉ fs.dirs) :
    fs.write p d = .error "ecriture impossible" := by
  unfold FS.write
  have hp : p ≠ [] := by
    intro hp
    exact h1 (by simp [hp])
  rw [if_neg hp]
  by_cases hd : p ∈ fs.dirs
  · rw [if_pos hd]
  · rw [if_neg hd, if_neg (by simp [h1, h2])]

theorem store_round_trip {β : Type} (enc : β → Json) (dec : Json → Option β)
    (hround : ∀ x, dec (enc x) = some x) (fs : FS) (path : List String)
    (xs : List β)
    (hok : (store_save fs path (.ok (.arr (xs.map enc)))).2 = .ok ()) :
    store_load dec (store_save fs path (.ok (.arr (xs.map enc)))).1 path
      = .ok xs := by
  simp only [store_save] at hok ⊢
  cases hw : (fs.createDirAll path.dropLast).write path
      (.jsonFile (.arr (xs.map enc))) with
  | error e => simp only [hw] at hok; cases hok
  | ok fs2 =>
    simp only [hw]
    obtain ⟨hfiles, hdirs, hnd⟩ := write_ok hw
    have hfind : findFile fs2.files path
        = some (.jsonFile (.arr (xs.map enc))) := by
      rw [hfiles]; simp [findFile]
    have hdirs' : path ∉ fs2.dirs := by rw [hdirs]; exact hnd
    simp [store_load, FS.existsPath, hfind, FS.read, hdirs', parseJson,
      decodeCollection, decodeList_map enc dec hround xs]

theorem load_signatures_after_save (app : AppHandle) (fs : FS)
    (sigs : List StoredSignature)
    (hok : (save_signatures app fs sigs).2 = .ok ()) :
    load_signatures app (save_signatures app fs sigs).1 = .ok sigs := by
  cases hd : app.appDataDir with
  | none => simp [save_signatures, signatures_path, hd] at hok
  | some d =>
    simp only [save_signatures, load_signatures, signatures_path, hd]
      at hok ⊢
    exact store_round_trip encodeSignature decodeSignature
      decodeSignature_encode fs (d ++ ["signatures.json"]) sigs hok

theorem load_snippets_after_save (app : AppHandle) (fs : FS)
    (snips : List String)
    (hok : (save_snippets app fs snips).2 = .ok ()) :
    load_snippets app (save_snippets app fs snips).1 = .ok snips := by
  cases hd : app.appDataDir with
  | none => simp [save_snippets, snippets_path, hd] at hok
  | some d =>
    simp only [save_snippets, load_snippets, snippets_path, hd] at hok ⊢
    exact store_round_trip encodeSnippet decodeSnippet
      decodeSnippet_encode fs (d ++ ["snippets.json"]) snips hok

/-! ## Helper lemmas: collision-safe naming -/

theorem probeFrom_finds (ex : String → Bool) (dir stem ext : String) :
    ∀ (fuel idx k : Nat), idx ≤ k → k < idx + fuel →
      ex (joinPath dir (numberedName stem ext k)) = false →
      (∀ j, idx ≤ j → j < k →
        ex (joinPath dir (numberedName stem ext j)) = true) →
      probeFrom ex dir stem ext fuel idx
        = joinPath dir (numberedName stem ext k) := by
  intro fuel
  induction fuel with
  | zero => intro idx k h1 h2 _ _; omega
  | succ n ih =>
    intro idx k h1 h2 hk hall
    by_cases hik : idx = k
    · subst hik
      simp only [probeFrom]
      rw [hk]
      simp
    · have hidx : ex (joinPath dir (numberedName stem ext idx)) = true :=
        hall idx le_rfl (by omega)
      simp only [probeFrom]
      rw [hidx]
      simp only [if_true]
      exact ih (idx + 1) k (by omega) (by omega) hk
        (fun j hj1 hj2 => hall j (by omega) hj2)

theorem probeFrom_exhausted (ex : String → Bool) (dir stem ext : String) :
    ∀ (fuel idx : Nat),
      (∀ j, idx ≤ j → j < idx + fuel →
        ex (joinPath dir (numberedName stem ext j)) = true) →
      probeFrom ex dir stem ext fuel idx
        = joinPath dir (stem ++ "-export." ++ ext) := by
  intro fuel
  induction fuel with
  | zero => intro idx _; rfl
  | succ n ih =>
    intro idx hall
    have hidx := hall idx le_rfl (by omega)
    simp only [probeFrom]
    rw [hidx]
    simp only [if_true]
    exact ih (idx + 1) (fun j hj1 hj2 => hall j (by omega) (by omega))

/-! ## Helper lemmas: directory creation -/

theorem mem_dirChain {d : List String} {k : Nat} (h0 : 0 < k)
    (hk : k ≤ d.length) : d.take k ∈ dirChain d := by
  unfold dirChain
  apply List.mem_filter.mpr
  refine ⟨List.mem_map.mpr ⟨k, List.mem_range.mpr (by omega), rfl⟩, ?_⟩
  simp only [decide_eq_true_eq]
  intro hnil
  rcases List.take_eq_nil_iff.mp hnil with h | h
  · omega
  · subst h; simp at hk; omega

theorem store_save_dirs (fs : FS) (path : List String)
    (encoded : Except String Json) :
    (store_save fs path encoded).1.dirs
      = dirChain path.dropLast ++ fs.dirs := by
  simp only [store_save]
  cases encoded with
  | error e => rfl
  | ok j =>
    cases hw : (fs.createDirAll path.dropLast).write path (.jsonFile j) with
    | error e => simp only [hw]; rfl
    | ok fs2 =>
      simp only [hw]
      rw [(write_ok hw).2.1]
      rfl

/-! ## Helper lemmas: file-name sanitation -/

theorem pathFileName_no_slash {name raw : String}
    (h : pathFileName name = some raw) : '/' ∉ raw.data := by
  unfold pathFileName at h
  obtain ⟨cs, hcs, hraw⟩ := Option.map_eq_some'.mp h
  subst hraw
  exact fileNameG_not_mem hcs

theorem lower_pdf_data : ".pdf".data.map Char.toLower = ".pdf".data := by
  decide

/-! ## Claim theorems -/

/-- Claim C1: round-trip of the JSON collection store — for every
collection (including the empty one) and for both the signature and the
snippet repository, a successful save followed by a load returns a
collection equal to the one saved. -/
theorem claim_c1_round_trip (app : AppHandle) (fs : FS)
    (sigs : List StoredSignature) (snips : List String) :
    ((save_signatures app fs sigs).2 = .ok () →
      load_signatures app (save_signatures app fs sigs).1 = .ok sigs)
    ∧ ((save_snippets app fs snips).2 = .ok () →
      load_snippets app (save_snippets app fs snips).1 = .ok snips) :=
  ⟨load_signatures_after_save app fs sigs,
   load_snippets_after_save app fs snips⟩

/-- Witness for C1: concrete round-trips of a one-element signature
collection, a two-snippet collection, and the empty signature
collection. -/
theorem claim_c1_round_trip_witness :
    load_signatures appW (save_signatures appW fsEmpty [sigW]).1
      = .ok [sigW]
    ∧ load_snippets appW (save_snippets appW fsEmpty ["a", "b"]).1
      = .ok ["a", "b"]
    ∧ load_signatures appW (save_signatures appW fsEmpty []).1 = .ok [] :=
  ⟨(claim_c1_round_trip appW fsEmpty [sigW] []).1 rfl,
   (claim_c1_round_trip appW fsEmpty [] ["a", "b"]).2 rfl,
   (claim_c1_round_trip appW fsEmpty [] []).1 rfl⟩

/-- Claim C2: case analysis of collection load for both repositories — a
missing backing file loads as the empty collection (a success, not an
error), while a present file whose content is not a JSON array of the
expected element shape loads as the `json invalide` decode error. -/
theorem claim_c2_load_cases (app : AppHandle) (fs : FS) (d : List String)
    (hd : app.appDataDir = some d) :
    (fs.existsPath (d ++ ["signatures.json"]) = false →
      load_signatures app fs = .ok [])
    ∧ (fs.existsPath (d ++ ["snippets.json"]) = false →
      load_snippets app fs = .ok [])
    ∧ (∀ c, findFile fs.files (d ++ ["signatures.json"]) = some c →
        d ++ ["signatures.json"] ∉ fs.dirs →
        (parseJson c).bind (decodeCollection decodeSignature) = none →
        load_signatures app fs = .error "json invalide")
    ∧ (∀ c, findFile fs.files (d ++ ["snippets.json"]) = some c →
        d ++ ["snippets.json"] ∉ fs.dirs →
        (parseJson c).bind (decodeCollection decodeSnippet) = none →
        load_snippets app fs = .error "json invalide") := by
  refine ⟨?_, ?_, ?_, ?_⟩
  · intro h
    simp [load_signatures, signatures_path, hd, store_load, h]
  · intro h
    simp [load_snippets, snippets_path, hd, store_load, h]
  · intro c hc hdir hbad
    have hex : fs.existsPath (d ++ ["signatures.json"]) = true := by
      simp [FS.existsPath, hc]
    simp only [load_signatures, signatures_path, hd, store_load, hex,
      if_true, FS.read, hc, if_neg hdir]
    cases hp : parseJson c with
    | none => simp
    | some j =>
      rw [hp] at hbad
      simp only [Option.some_bind] at hbad
      simp [hbad]
  · intro c hc hdir hbad
    have hex : fs.existsPath (d ++ ["snippets.json"]) = true := by
      simp [FS.existsPath, hc]
    simp only [load_snippets, snippets_path, hd, store_load, hex,
      if_true, FS.read, hc, if_neg hdir]
    cases hp : parseJson c with
    | none => simp
    | some j =>
      rw [hp] at hbad
      simp only [Option.some_bind] at hbad
      simp [hbad]

/-- Witness for C2: loads from the empty filesystem succeed with the empty
collection; loads over a non-JSON signature file and a wrong-shape snippet
file fail with the decode error. -/
theorem claim_c2_load_cases_witness :
    load_signatures appW fsEmpty = .ok []
    ∧ load_snippets appW fsEmpty = .ok []
    ∧ load_signatures appW fsBadSig = .error "json invalide"
    ∧ load_snippets appW fsBadSnip = .error "json invalide" :=
  ⟨(claim_c2_load_cases appW fsEmpty ["data"] rfl).1 rfl,
   (claim_c2_load_cases appW fsEmpty ["data"] rfl).2.1 rfl,
   (claim_c2_load_cases appW fsBadSig ["data"] rfl).2.2.1 .badJson rfl
     (by decide) rfl,
   (claim_c2_load_cases appW fsBadSnip ["data"] rfl).2.2.2
     (.jsonFile (.str "x")) rfl (by decide) rfl⟩

/-- Claim C3: save is full-replace for both repositories — after saving a
first collection and then a second one, a load returns exactly the second
collection, with nothing surviving from the first. -/
theorem claim_c3_full_replace (app : AppHandle) (fs : FS)
    (sigs1 sigs2 : List StoredSignature) (snips1 snips2 : List String) :
    ((save_signatures app (save_signatures app fs sigs1).1 sigs2).2
        = .ok () →
      load_signatures app
          (save_signatures app (save_signatures app fs sigs1).1 sigs2).1
        = .ok sigs2)
    ∧ ((save_snippets app (save_snippets app fs snips1).1 snips2).2
        = .ok () →
      load_snippets app
          (save_snippets app (save_snippets app fs snips1).1 snips2).1
        = .ok snips2) :=
  ⟨load_signatures_after_save app (save_signatures app fs sigs1).1 sigs2,
   load_snippets_after_save app (save_snippets app fs snips1).1 snips2⟩

/-- Witness for C3: saving `[sigW]` then `[]` loads as `[]`; saving
`["a"]` then `["b", "c"]` loads as `["b", "c"]`. -/
theorem claim_c3_full_replace_witness :
    load_signatures appW
        (save_signatures appW (save_signatures appW fsEmpty [sigW]).1 []).1
      = .ok []
    ∧ load_snippets appW
        (save_snippets appW (save_snippets appW fsEmpty ["a"]).1
          ["b", "c"]).1
      = .ok ["b", "c"] :=
  ⟨(claim_c3_full_replace appW fsEmpty [sigW] [] [] []).1 rfl,
   (claim_c3_full_replace appW fsEmpty [] [] ["a"] ["b", "c"]).2 rfl⟩

/-- Claim C4: collision-safe export naming — the resolver returns
`dir/name` when it does not exist; otherwise the first free numbered
candidate `dir/"{stem} ({k}).{ext}"` with `1 ≤ k ≤ 999`; and when all 999
numbered candidates exist, `dir/"{stem}-export.{ext}"` unconditionally. -/
theorem claim_c4_collision_safe_naming (ex : String → Bool) (dir : String)
    (name stem ext : String)
    (hstem : pathFileStem name = some stem)
    (hext : pathExtension name = some ext) :
    (ex (joinPath dir name) = false →
      next_available_path ex dir name = joinPath dir name)
    ∧ (∀ k, 1 ≤ k → k ≤ 999 → ex (joinPath dir name) = true →
        ex (joinPath dir (numberedName stem ext k)) = false →
        (∀ j, 1 ≤ j → j < k →
          ex (joinPath dir (numberedName stem ext j)) = true) →
        next_available_path ex dir name
          = joinPath dir (numberedName stem ext k))
    ∧ (ex (joinPath dir name) = true →
        (∀ j, 1 ≤ j → j ≤ 999 →
          ex (joinPath dir (numberedName stem ext j)) = true) →
        next_available_path ex dir name
          = joinPath dir (stem ++ "-export." ++ ext)) := by
  refine ⟨?_, ?_, ?_⟩
  · intro h
    simp [next_available_path, h]
  · intro k h1 h2 hex0 hk hall
    simp only [next_available_path, hex0, if_true, hstem, hext,
      Option.getD_some]
    exact probeFrom_finds ex dir stem ext 999 1 k h1 (by omega) hk
      (fun j hj1 hj2 => hall j hj1 hj2)
  · intro hex0 hall
    simp only [next_available_path, hex0, if_true, hstem, hext,
      Option.getD_some]
    exact probeFrom_exhausted ex dir stem ext 999 1
      (fun j hj1 hj2 => hall j hj1 (by omega))

/-- Witness for C4: with `doc.pdf` and `doc (1).pdf` taken the resolver
yields `doc (2).pdf`; with nothing taken it yields `doc.pdf`; with every
path taken it falls back to `doc-export.pdf`. -/
theorem claim_c4_collision_safe_naming_witness :
    next_available_path exW "D" "doc.pdf" = "D/doc (2).pdf"
    ∧ next_available_path (fun _ => false) "D" "doc.pdf" = "D/doc.pdf"
    ∧ next_available_path (fun _ => true) "D" "doc.pdf"
      = "D/doc-export.pdf" := by
  refine ⟨?_, ?_, ?_⟩
  · have h := (claim_c4_collision_safe_naming exW "D" "doc.pdf" "doc" "pdf"
      (by decide) (by decide)).2.1 2 (by omega) (by omega) (by decide)
      (by decide)
      (fun j hj1 hj2 => by
        have hj : j = 1 := by omega
        subst hj
        decide)
    rw [h]; rfl
  · have h := (claim_c4_collision_safe_naming (fun _ => false) "D"
      "doc.pdf" "doc" "pdf" (by decide) (by decide)).1 rfl
    rw [h]; rfl
  · have h := (claim_c4_collision_safe_naming (fun _ => true) "D"
      "doc.pdf" "doc" "pdf" (by decide) (by decide)).2.2 rfl
      (fun _ _ _ => rfl)
    rw [h]; rfl

/-- Claim C5: file-name sanitation — the result never contains a path
separator, always ends in `.pdf` up to case (with no second `.pdf`
appended when one is already present), is the fixed default name when the
input has no final component, and takes the two specified concrete
values. -/
theorem claim_c5_sanitize_file_name (name : String) :
    (∀ c ∈ (sanitize_file_name name).data, c ≠ '/')
    ∧ strEndsWith (lowerStr (sanitize_file_name name)) ".pdf" = true
    ∧ (pathFileName name = none →
        sanitize_file_name name = "document-signed.pdf")
    ∧ (∀ raw, pathFileName name = some raw →
        strEndsWith (lowerStr raw) ".pdf" = true →
        sanitize_file_name name = raw)
    ∧ sanitize_file_name "../../etc/passwd" = "passwd.pdf"
    ∧ sanitize_file_name "report.PDF" = "report.PDF" := by
  have hraw :
      '/' ∉ ((pathFileName name).getD "document-signed.pdf").data := by
    cases h : pathFileName name with
    | none => decide
    | some raw => simpa using pathFileName_no_slash h
  have key : ∀ r : String,
      strEndsWith (lowerStr (r ++ ".pdf")) ".pdf" = true := by
    intro r
    show endsWithList ((r ++ ".pdf").data.map Char.toLower) ".pdf".data
      = true
    rw [String.data_append, List.map_append, lower_pdf_data]
    exact endsWithList_append _ _
  have hslash : '/' ∉ (sanitize_file_name name).data := by
    simp only [sanitize_file_name]
    split
    · exact hraw
    · intro hmem
      rw [String.data_append] at hmem
      rcases List.mem_append.mp hmem with h | h
      · exact hraw h
      · exact (by decide : '/' ∉ ".pdf".data) h
  refine ⟨fun c hc hc' => absurd (hc' ▸ hc) hslash, ?_, ?_, ?_,
    by decide, by decide⟩
  · simp only [sanitize_file_name]
    split
    · assumption
    · exact key _
  · intro h
    simp only [sanitize_file_name, h, Option.getD_none]
    decide
  · intro raw h hend
    simp [sanitize_file_name, h, hend]

/-- Counterexample for C6 as stated: the OS byte path `FF 2E 70 64 66`
(`<invalid>.pdf`) has a pdf extension and exists at filter time, yet no
`OpenPdfEvent` is forwarded, because the full path is not valid UTF-8. -/
theorem claim_c6_counterexample :
    is_pdf_path [255, 46, 112, 100, 102] = true
    ∧ (fun _ => true : List Nat → Bool) [255, 46, 112, 100, 102] = true
    ∧ (emit_open_pdf (fun _ => true) true [255, 46, 112, 100, 102]).1
      = [] :=
  ⟨by decide, rfl, by decide⟩

/-- Claim C6 (amended): an `OpenPdfEvent` is forwarded — exactly once —
if and only if the candidate's extension case-insensitively equals `pdf`,
the path exists at filter time, AND the path is valid UTF-8; an existing
`.txt` path is dropped, a missing `.pdf` path is dropped, and an existing
UTF-8 `.pdf` path is forwarded exactly once. -/
theorem claim_c6_open_filter (ex : List Nat → Bool) (emitOk : Bool)
    (p : List Nat) :
    ((emit_open_pdf ex emitOk p).1
      = if is_pdf_path p && ex p && isValidUtf8 p then [p] else [])
    ∧ (emit_open_pdf (fun _ => true) emitOk [100, 46, 116, 120, 116]).1
      = []
    ∧ (emit_open_pdf (fun _ => false) emitOk [100, 46, 112, 100, 102]).1
      = []
    ∧ (emit_open_pdf (fun _ => true) emitOk [100, 46, 112, 100, 102]).1
      = [[100, 46, 112, 100, 102]] := by
  refine ⟨?_, ?_, ?_, ?_⟩
  · cases h1 : is_pdf_path p <;> cases h2 : ex p <;>
      cases h3 : isValidUtf8 p <;>
      simp [emit_open_pdf, toStrBytes, h1, h2, h3]
  · cases emitOk <;> decide
  · cases emitOk <;> decide
  · cases emitOk <;> decide

/-- Claim C7: the collection saves create the parent directory chain of
the collection file, while `save_pdf_to_path` creates no directory and
fails with the write error when the destination directory is absent. -/
theorem claim_c7_dir_creation_divergence (app : AppHandle) (fs : FS)
    (d : List String) (sigs : List StoredSignature) (snips : List String)
    (bytes : List Nat) (p : String) (hd : app.appDataDir = some d) :
    (∀ k, 0 < k → k ≤ d.length →
      d.take k ∈ (save_signatures app fs sigs).1.dirs)
    ∧ (∀ k, 0 < k → k ≤ d.length →
      d.take k ∈ (save_snippets app fs snips).1.dirs)
    ∧ ((strComponents p).dropLast ≠ [] →
        (strComponents p).dropLast ∉ fs.dirs →
        save_pdf_to_path fs bytes p
          = (fs, .error "ecriture impossible")) := by
  refine ⟨?_, ?_, ?_⟩
  · intro k h0 hk
    simp only [save_signatures, signatures_path, hd]
    rw [store_save_dirs]
    apply List.mem_append_left
    rw [List.dropLast_concat]
    exact mem_dirChain h0 hk
  · intro k h0 hk
    simp only [save_snippets, snippets_path, hd]
    rw [store_save_dirs]
    apply List.mem_append_left
    rw [List.dropLast_concat]
    exact mem_dirChain h0 hk
  · intro h1 h2
    simp [save_pdf_to_path, write_no_parent h1 h2]

/-- Witness for C7: saving into app-data directory `data/` creates it,
and a direct document write into the missing directory `no/dir/` fails
with the write error and leaves the filesystem unchanged. -/
theorem claim_c7_dir_creation_divergence_witness :
    ["data"].take 1 ∈ (save_signatures appW fsEmpty []).1.dirs
    ∧ ["data"].take 1 ∈ (save_snippets appW fsEmpty []).1.dirs
    ∧ save_pdf_to_path fsEmpty [9] "no/dir/f.pdf"
      = (fsEmpty, .error "ecriture impossible") :=
  ⟨(claim_c7_dir_creation_divergence appW fsEmpty ["data"] [] [] [9]
      "no/dir/f.pdf" rfl).1 1 (by omega) (by decide),
   (claim_c7_dir_creation_divergence appW fsEmpty ["data"] [] [] [9]
      "no/dir/f.pdf" rfl).2.1 1 (by omega) (by decide),
   (claim_c7_dir_creation_divergence appW fsEmpty ["data"] [] [] [9]
      "no/dir/f.pdf" rfl).2.2 (by decide) (by decide)⟩

/-- Claim C8: direct document load — the result carries the file's stored
content together with the path's final component as display name
(`"document.pdf"` when the path has none), and it fails exactly when the
path cannot be read. -/
theorem claim_c8_load_pdf_from_path (fs : FS) (path : String) :
    (∀ f, pathFileName path = some f →
      load_pdf_from_path fs path
        = (fs.read (strComponents path)).map (fun dd => ⟨dd, f⟩))
    ∧ (pathFileName path = none →
      load_pdf_from_path fs path
        = (fs.read (strComponents path)).map
            (fun dd => ⟨dd, "document.pdf"⟩))
    ∧ ((load_pdf_from_path fs path).isOk
        = (fs.read (strComponents path)).isOk) := by
  refine ⟨?_, ?_, ?_⟩
  · intro f hf
    cases hr : fs.read (strComponents path) with
    | error e => simp [load_pdf_from_path, hr, Except.map]
    | ok dd => simp [load_pdf_from_path, hr, hf, Except.map]
  · intro hf
    cases hr : fs.read (strComponents path) with
    | error e => simp [load_pdf_from_path, hr, Except.map]
    | ok dd => simp [load_pdf_from_path, hr, hf, Except.map]
  · cases hr : fs.read (strComponents path) with
    | error e => simp [load_pdf_from_path, hr, Except.isOk, Except.toBool]
    | ok dd => simp [load_pdf_from_path, hr, Except.isOk, Except.toBool]

/-- Witness for C8: loading the stored `out/doc.pdf` returns its content
named `doc.pdf`; loading `out/..` (no extractable file name) from a
filesystem without that file fails with the read error. -/
theorem claim_c8_load_pdf_from_path_witness :
    load_pdf_from_path fsDoc "out/doc.pdf" = .ok ⟨.rawFile [9], "doc.pdf"⟩
    ∧ load_pdf_from_path fsDoc "out/.." = .error "lecture impossible" := by
  constructor
  · rw [(claim_c8_load_pdf_from_path fsDoc "out/doc.pdf").1 "doc.pdf"
      (by decide)]
    rfl
  · rw [(claim_c8_load_pdf_from_path fsDoc "out/..").2.1 (by decide)]
    rfl

/-- Claim C9: a candidate that passes the pdf-extension and existence
filter but is not valid UTF-8 is dropped silently — no event is forwarded
and nothing is logged. -/
theorem claim_c9_non_utf8_dropped (ex : List Nat → Bool) (emitOk : Bool)
    (p : List Nat) (hpdf : is_pdf_path p = true) (hex : ex p = true)
    (hutf : isValidUtf8 p = false) :
    emit_open_pdf ex emitOk p = ([], []) := by
  simp [emit_open_pdf, hpdf, hex, toStrBytes, hutf]

/-- Witness for C9 at the byte path `FF 2E 70 64 66`, with the existence
check passing and the emit channel failing (so a forward attempt would
have logged). -/
theorem claim_c9_non_utf8_dropped_witness :
    emit_open_pdf (fun _ => true) false [255, 46, 112, 100, 102]
      = ([], []) :=
  claim_c9_non_utf8_dropped (fun _ => true) false [255, 46, 112, 100, 102]
    (by decide) rfl (by decide)

/-- Claim C10: when the encode step of a collection save fails, the save
reports the encode error and the stored file list is unchanged, although
the parent directory chain has already been created. -/
theorem claim_c10_encode_error_atomic (fs : FS) (path : List String)
    (msg : String) (hp : path.dropLast ≠ []) :
    (store_save fs path (.error msg)).1.files = fs.files
    ∧ (store_save fs path (.error msg)).2 = .error "json invalide"
    ∧ path.dropLast ∈ (store_save fs path (.error msg)).1.dirs := by
  refine ⟨rfl, rfl, ?_⟩
  rw [store_save_dirs]
  apply List.mem_append_left
  have h := mem_dirChain (d := path.dropLast)
    (k := path.dropLast.length) (List.length_pos.mpr hp) le_rfl
  rwa [List.take_length] at h

/-- Witness for C10 at the signature path under `data/` with a failing
encode result. -/
theorem claim_c10_encode_error_atomic_witness :
    (store_save fsEmpty ["data", "signatures.json"] (.error "boom")).1.files
      = fsEmpty.files
    ∧ (store_save fsEmpty ["data", "signatures.json"] (.error "boom")).2
      = .error "json invalide"
    ∧ ["data", "signatures.json"].dropLast
      ∈ (store_save fsEmpty ["data", "signatures.json"]
          (.error "boom")).1.dirs :=
  claim_c10_encode_error_atomic fsEmpty ["data", "signatures.json"] "boom"
    (by decide)

end SignStamp
